import Mathlib

/-!
# Verification of the retrieval-fusion-and-verification pipeline

Shallow embedding of `backend/app/core/hallucination_guard.py` and
`backend/app/core/reranker.py`.

Modelling conventions:
* Python strings are `String` / `List Char`; positions are code-point offsets,
  exactly as Python's `str` indices.
* Python floats are modelled as `Rat` (exact arithmetic); `round` is modelled
  as ideal round-half-to-even on the rational value.  Binary floating-point
  representation error is not modelled.
* Python `set` objects are modelled as lists; all downstream uses in the
  source only depend on membership.
* Python dicts are association lists preserving insertion order, matching
  CPython's ordered-dict semantics.
* `re.finditer` is modelled by a left-to-right scanner that, at each position,
  runs a hand-translated matcher for the pattern and resumes after the end of
  a match.  Each of the fixed patterns in the source is simple enough that
  greedy matching without backtracking is equivalent (noted per matcher).
-/

namespace PurityProp

/-! ## Character classes (Python `re` classes, ASCII semantics) -/

def isDigitCh (c : Char) : Bool := '0' ≤ c ∧ c ≤ '9'

def isSpaceCh (c : Char) : Bool :=
  c = ' ' ∨ c = '\t' ∨ c = '\n' ∨ c = '\r' ∨ c = '\x0b' ∨ c = '\x0c'

/-- Python `\w` (ASCII part): letters, digits, underscore. -/
def isWordCh (c : Char) : Bool :=
  ('a' ≤ c ∧ c ≤ 'z') ∨ ('A' ≤ c ∧ c ≤ 'Z') ∨ isDigitCh c ∨ c = '_'

def isDigitComma (c : Char) : Bool := isDigitCh c ∨ c = ','

def isDigitDot (c : Char) : Bool := isDigitCh c ∨ c = '.'

def isColonSpace (c : Char) : Bool := c = ':' ∨ isSpaceCh c

/-- Case-insensitive character comparison (re.IGNORECASE). -/
def ciEq (a b : Char) : Bool := a.toLower = b.toLower

/-! ## Matcher state machinery -/

/-- State while matching one pattern at one start position:
remaining input and number of characters consumed so far. -/
structure MSt where
  rem : List Char
  used : Nat
deriving Repr

/-- Match a literal, case-insensitively. -/
def mLitCI : List Char → MSt → Option MSt
  | [], st => some st
  | c :: cs, st =>
    match st.rem with
    | [] => none
    | x :: xs => if ciEq x c then mLitCI cs ⟨xs, st.used + 1⟩ else none

def mLitCIs (lit : String) (st : MSt) : Option MSt := mLitCI lit.data st

/-- Match one character satisfying `p`. -/
def mCharP (p : Char → Bool) (st : MSt) : Option MSt :=
  match st.rem with
  | [] => none
  | x :: xs => if p x then some ⟨xs, st.used + 1⟩ else none

/-- Greedy `p+`, returning the captured run. -/
def mSpan1 (p : Char → Bool) (st : MSt) : Option (List Char × MSt) :=
  let g := st.rem.takeWhile p
  if g.isEmpty then none
  else some (g, ⟨st.rem.drop g.length, st.used + g.length⟩)

/-- Greedy `p*` (never fails). -/
def mSpan0 (p : Char → Bool) (st : MSt) : MSt :=
  ⟨st.rem.dropWhile p, st.used + (st.rem.takeWhile p).length⟩

/-- Greedy optional fraction `(?:\.\d+)?`, extending a captured group. -/
def mFracOpt : List Char × MSt → List Char × MSt
  | (g, st) =>
    match st.rem with
    | '.' :: r =>
      let ds := r.takeWhile isDigitCh
      if ds.isEmpty then (g, st)
      else (g ++ '.' :: ds, ⟨r.drop ds.length, st.used + 1 + ds.length⟩)
    | _ => (g, st)

/-- A pattern matcher: given the suffix of the text at a start position,
return `(length of the whole match, captured group 1)` or `none`. -/
def Matcher : Type := List Char → Option (Nat × List Char)

/-! ## The thirteen patterns of `NUMERIC_PATTERNS` -/

def litRs : String := "rs"
def litInr : String := "inr"
def litCrore : String := "crore"
def litCr : String := "cr"
def litLakh : String := "lakh"
def litLac : String := "lac"
def litCagr : String := "cagr"
def litPer : String := "per"
def litSq : String := "sq"
def litFt : String := "ft"
def litPsf : String := "psf"
def litKm : String := "km"
def litKilometer : String := "kilometer"
def litMeter : String := "meter"
def litScoreW : String := "score"
def litRating : String := "rating"
def litBhk : String := "bhk"

/-- `\s*([\d,]+(?:\.\d+)?)` — shared tail of the two price patterns. -/
def numGroupComma (st : MSt) : Option (Nat × List Char) := do
  let st := mSpan0 isSpaceCh st
  let (g, st) ← mSpan1 isDigitComma st
  let (g, st) := mFracOpt (g, st)
  pure (st.used, g)

/-- `[₹][\s]*([\d,]+(?:\.\d+)?)` → type `price`. -/
def matchRupee : Matcher := fun s => do
  let st ← mCharP (fun c => c = '₹') ⟨s, 0⟩
  numGroupComma st

/-- `(?:Rs\.?|INR)\s*([\d,]+(?:\.\d+)?)` → type `price`.
`\.?` is taken greedily: if the dot is consumed and the tail fails, the
non-consuming alternative also fails (the dot is neither space nor digit),
so no backtracking is needed. -/
def matchRsInr : Matcher := fun s =>
  (do
    let st ← mLitCIs litRs ⟨s, 0⟩
    let st :=
      match st.rem with
      | '.' :: r => MSt.mk r (st.used + 1)
      | _ => st
    numGroupComma st)
  <|>
  (do
    let st ← mLitCIs litInr ⟨s, 0⟩
    numGroupComma st)

/-- `([\d.]+)\s*(?:crore|cr)` → type `price_crore`. -/
def matchCrore : Matcher := fun s => do
  let (g, st) ← mSpan1 isDigitDot ⟨s, 0⟩
  let st := mSpan0 isSpaceCh st
  let st ← mLitCIs litCrore st <|> mLitCIs litCr st
  pure (st.used, g)

/-- `([\d.]+)\s*(?:lakh|lac|L)` → type `price_lakh`. -/
def matchLakh : Matcher := fun s => do
  let (g, st) ← mSpan1 isDigitDot ⟨s, 0⟩
  let st := mSpan0 isSpaceCh st
  let st ← mLitCIs litLakh st <|> mLitCIs litLac st <|> mCharP (fun c => ciEq c 'l') st
  pure (st.used, g)

/-- `([\d.]+)\s*%` → type `percentage`. -/
def matchPct : Matcher := fun s => do
  let (g, st) ← mSpan1 isDigitDot ⟨s, 0⟩
  let st := mSpan0 isSpaceCh st
  let st ← mCharP (fun c => c = '%') st
  pure (st.used, g)

/-- `CAGR[:\s]+of?\s*([\d.]+)\s*%` → type `cagr`.
`[:\s]+` greedy is safe (the following `o` is not in the class); `f?` greedy
is safe (if `f` is consumed and the tail fails, skipping `f` leaves the
parse at a letter where `\s*[\d.]+` also fails). -/
def matchCagr : Matcher := fun s => do
  let st ← mLitCIs litCagr ⟨s, 0⟩
  let (_, st) ← mSpan1 isColonSpace st
  let st ← mCharP (fun c => ciEq c 'o') st
  let st :=
    match st.rem with
    | c :: r => if ciEq c 'f' then MSt.mk r (st.used + 1) else st
    | [] => st
  let st := mSpan0 isSpaceCh st
  let (g, st) ← mSpan1 isDigitDot st
  let st := mSpan0 isSpaceCh st
  let st ← mCharP (fun c => c = '%') st
  pure (st.used, g)

/-- `sq\s*ft` — shared tail. -/
def sqFtTail (st : MSt) : Option MSt := do
  let st ← mLitCIs litSq st
  let st := mSpan0 isSpaceCh st
  mLitCIs litFt st

/-- `([\d,]+(?:\.\d+)?)\s*(?:per\s*sq\s*ft|/sq\s*ft|psf)` → type `price_per_sqft`. -/
def matchSqftPrice : Matcher := fun s => do
  let (g, st) ← mSpan1 isDigitComma ⟨s, 0⟩
  let (g, st) := mFracOpt (g, st)
  let st := mSpan0 isSpaceCh st
  let st ←
    (do
      let st ← mLitCIs litPer st
      let st := mSpan0 isSpaceCh st
      sqFtTail st)
    <|>
    (do
      let st ← mCharP (fun c => c = '/') st
      sqFtTail st)
    <|> mLitCIs litPsf st
  pure (st.used, g)

/-- `([\d.]+)\s*(?:km|kilometer)` → type `distance_km`. -/
def matchKm : Matcher := fun s => do
  let (g, st) ← mSpan1 isDigitDot ⟨s, 0⟩
  let st := mSpan0 isSpaceCh st
  let st ← mLitCIs litKm st <|> mLitCIs litKilometer st
  pure (st.used, g)

/-- True when the lookahead `(?!\w)` succeeds. -/
def lookNoWord (l : List Char) : Bool :=
  match l with
  | [] => true
  | c :: _ => !isWordCh c

/-- `([\d.]+)\s*(?:m|meter)(?!\w)` → type `distance_m`.
The regex first tries alternative `m`; if the lookahead then fails it
backtracks to `meter`.  Backtracking into `[\d.]+`/`\s*` can never succeed
(the following character would be a digit, dot or space, never `m`). -/
def matchMeter : Matcher := fun s => do
  let (g, st) ← mSpan1 isDigitDot ⟨s, 0⟩
  let st := mSpan0 isSpaceCh st
  match st.rem with
  | c :: r =>
    if ciEq c 'm' then
      if lookNoWord r then some (st.used + 1, g)
      else
        match mLitCIs litMeter st with
        | some st2 => if lookNoWord st2.rem then some (st2.used, g) else none
        | none => none
    else none
  | [] => none

/-- `(?:score|rating)[:\s]+([\d.]+)` → type `score`. -/
def matchScoreRating : Matcher := fun s => do
  let st ← mLitCIs litScoreW ⟨s, 0⟩ <|> mLitCIs litRating ⟨s, 0⟩
  let (_, st) ← mSpan1 isColonSpace st
  let (g, st) ← mSpan1 isDigitDot st
  pure (st.used, g)

/-- `(\d+)\s*BHK` → type `bhk`. -/
def matchBhkPat : Matcher := fun s => do
  let (g, st) ← mSpan1 isDigitCh ⟨s, 0⟩
  let st := mSpan0 isSpaceCh st
  let st ← mLitCIs litBhk st
  pure (st.used, g)

/-- `([\d,]+(?:\.\d+)?)\s*sq\s*ft` → type `area_sqft`. -/
def matchAreaSqft : Matcher := fun s => do
  let (g, st) ← mSpan1 isDigitComma ⟨s, 0⟩
  let (g, st) := mFracOpt (g, st)
  let st := mSpan0 isSpaceCh st
  let st ← sqFtTail st
  pure (st.used, g)

/-- The `NUMERIC_PATTERNS` table, in source order. -/
def NUMERIC_PATTERNS : List (Matcher × String) :=
  [(matchRupee, "price"),
   (matchRsInr, "price"),
   (matchCrore, "price_crore"),
   (matchLakh, "price_lakh"),
   (matchPct, "percentage"),
   (matchCagr, "cagr"),
   (matchSqftPrice, "price_per_sqft"),
   (matchKm, "distance_km"),
   (matchMeter, "distance_m"),
   (matchScoreRating, "score"),
   (matchBhkPat, "bhk"),
   (matchAreaSqft, "area_sqft")]

/-! ## `re.finditer` and claim extraction -/

/-- One raw regex match: start offset, matched text (`group(0)`),
captured group 1. -/
structure RawMatch where
  pos : Nat
  raw : List Char
  grp : List Char
deriving Repr

/-- Left-to-right non-overlapping scan, as `re.finditer`:
`skip` counts positions still inside the previous match. -/
def findAux (m : Matcher) : List Char → Nat → Nat → List RawMatch
  | [], _, _ => []
  | c :: rest, pos, 0 =>
    match m (c :: rest) with
    | some (len, g) =>
      ⟨pos, (c :: rest).take len, g⟩ :: findAux m rest (pos + 1) (max len 1 - 1)
    | none => findAux m rest (pos + 1) 0
  | _ :: rest, pos, Nat.succ k => findAux m rest (pos + 1) k

def findMatches (m : Matcher) (text : List Char) : List RawMatch :=
  findAux m text 0 0

/-- The claim record built by `extract_numeric_claims` per match. -/
structure NumClaim where
  claim_type : String
  value : Rat
  raw : List Char
  position : Nat
deriving DecidableEq, Repr

def digitsVal (l : List Char) : Nat :=
  l.foldl (fun a c => 10 * a + (c.toNat - 48)) 0

/-- Python `float(s)` restricted to the strings producible by the digit/dot
character classes of the patterns (after comma stripping):
accepts `d+`, `d+.d*`, `.d+`, rejects `""`, `"."` and multiple dots. -/
def pyFloat (l : List Char) : Option Rat :=
  if l.all (fun c => isDigitCh c || c = '.') then
    let ip := l.takeWhile (fun c => c ≠ '.')
    let rest := l.drop ip.length
    match rest with
    | [] => if ip.isEmpty then none else some (digitsVal ip)
    | _ :: fp =>
      if fp.all (fun c => c ≠ '.') ∧ (!ip.isEmpty || !fp.isEmpty) then
        some ((digitsVal ip : Rat) + (digitsVal fp : Rat) / (10 : Rat) ^ fp.length)
      else none
  else none

def stripCommas (l : List Char) : List Char := l.filter (fun c => c ≠ ',')

/-- All claims contributed by one pattern: every match whose comma-stripped
group parses as a float (a `ValueError` drops the match). -/
def patternClaims (m : Matcher) (ty : String) (text : List Char) : List NumClaim :=
  (findMatches m text).filterMap (fun rm =>
    match pyFloat (stripCommas rm.grp) with
    | some v => some ⟨ty, v, rm.raw, rm.pos⟩
    | none => none)

/-- `extract_numeric_claims`: apply every pattern independently, in table
order, concatenating the per-pattern claim lists. -/
def extract_numeric_claims (text : List Char) : List NumClaim :=
  NUMERIC_PATTERNS.flatMap (fun pc => patternClaims pc.1 pc.2 text)

/-! ## Python values and rounding -/

/-- Nested Python data as passed in `tool_outputs` / `retrieved_data`. -/
inductive PyVal where
  | num (q : Rat)
  | str (s : String)
  | pynone
  | arr (items : List PyVal)
  | dict (entries : List (String × PyVal))
deriving Repr

/-- Round-half-to-even to an integer (Python `round` on an exact value). -/
def roundHalfEven (q : Rat) : Int :=
  let f := ⌊q⌋
  let r := q - (f : Rat)
  if r < 1/2 then f
  else if 1/2 < r then f + 1
  else if f % 2 = 0 then f else f + 1

/-- Python `round(q, n)` on the exact rational value. -/
def roundTo (q : Rat) (n : Nat) : Rat :=
  (roundHalfEven (q * (10 : Rat) ^ n) : Rat) / (10 : Rat) ^ n

/-! ## Tool output registry (`extract_tool_values`, `flatten_tool_values`) -/

/-- Append one value to the bucket of `key` (Python `values[key].append(v)`,
creating the bucket on first use; dict insertion order preserved). -/
def addVal (m : List (String × List Rat)) (key : String) (v : Rat) :
    List (String × List Rat) :=
  match m with
  | [] => [(key, [v])]
  | (k, vs) :: t => if k = key then (k, vs ++ [v]) :: t else (k, vs) :: addVal t key v

mutual

/-- `_extract_recursive(obj, prefix)` threading the mutated `values` dict. -/
def extractRec : PyVal → String → List (String × List Rat) → List (String × List Rat)
  | PyVal.num q, pfx, m => addVal m (if pfx = "" then "value" else pfx) q
  | PyVal.str _, _, m => m
  | PyVal.pynone, _, m => m
  | PyVal.dict es, pfx, m => extractDict es pfx m
  | PyVal.arr xs, pfx, m => extractArr xs 0 pfx m

def extractDict : List (String × PyVal) → String → List (String × List Rat) → List (String × List Rat)
  | [], _, m => m
  | (k, v) :: t, pfx, m =>
    extractDict t pfx (extractRec v (if pfx = "" then k else pfx ++ "." ++ k) m)

def extractArr : List PyVal → Nat → String → List (String × List Rat) → List (String × List Rat)
  | [], _, _, m => m
  | v :: t, i, pfx, m =>
    extractArr t (i + 1) pfx (extractRec v (pfx ++ "[" ++ toString i ++ "]") m)

end

def extract_tool_values (tool_outputs : PyVal) : List (String × List Rat) :=
  extractRec tool_outputs "" []

/-- The six derived unit transforms added for every nonzero value. -/
def derivedTransforms (v : Rat) : List Rat :=
  [roundTo v 2, roundTo v 4,
   roundTo (v * 100) 2, roundTo (v * 100) 4,
   roundTo (v / 100000) 2, roundTo (v / 10000000) 2]

/-- One value together with its derived transforms (`all_values.add(v)` and
the six conditional `add`s of the source loop body). -/
def withTransforms (v : Rat) : List Rat :=
  v :: (if v ≠ 0 then derivedTransforms v else [])

/-- `flatten_tool_values`: the flat reference value set (modelled as a list;
every downstream use depends only on membership). -/
def flatten_tool_values (tool_outputs : PyVal) : List Rat :=
  (extract_tool_values tool_outputs).flatMap (fun kv => kv.2.flatMap withTransforms)

/-- All values of the path-keyed registry, in order (`extracted.values()`
flattened); auxiliary for stating membership facts. -/
def joinedVals (m : List (String × List Rat)) : List Rat :=
  m.flatMap (fun kv => kv.2)

mutual

/-- All numeric leaves of a nested value, for stating properties. -/
def pyLeaves : PyVal → List Rat
  | PyVal.num q => [q]
  | PyVal.str _ => []
  | PyVal.pynone => []
  | PyVal.arr xs => pyLeavesArr xs
  | PyVal.dict es => pyLeavesDict es

def pyLeavesArr : List PyVal → List Rat
  | [] => []
  | x :: t => pyLeaves x ++ pyLeavesArr t

def pyLeavesDict : List (String × PyVal) → List Rat
  | [] => []
  | (_, x) :: t => pyLeaves x ++ pyLeavesDict t

end

/-! ## Hallucination judge -/

def TOLERANCE_ABSOLUTE : Rat := 1/100

def TOLERANCE_RELATIVE : Rat := 1/20

def SAFE_CLAIM_TYPES : List String := ["bhk"]

/-- `HallucinationJudge._values_match`. -/
def valuesMatch (claimed reference : Rat) : Bool :=
  if reference = 0 then |claimed| < TOLERANCE_ABSOLUTE
  else if |claimed - reference| < TOLERANCE_ABSOLUTE then true
  else if |claimed - reference| / |reference| < TOLERANCE_RELATIVE then true
  else false

/-- `HallucinationJudge._find_matching_source` (set iteration modelled by
list order; only `isSome` matters downstream). -/
def findMatchingSource (claim_value : Rat) (tool_values : List Rat) : Option Rat :=
  tool_values.find? (fun r => valuesMatch claim_value r)

/-- Python `min(refs, key=lambda x: abs(x - value))` (first minimum wins). -/
def minByAbs (value : Rat) : List Rat → Option Rat
  | [] => none
  | x :: xs =>
    some (xs.foldl (fun best r => if |r - value| < |best - value| then r else best) x)

/-- `HallucinationJudge._find_closest`: closest reference and its rounded
percentage difference. -/
def findClosest (value : Rat) (refs : List Rat) : Option (Rat × Rat) :=
  match minByAbs value refs with
  | none => none
  | some c => some (c, roundTo (|value - c| / max |c| (1/100) * 100) 2)

/-- One entry of `verdict.mismatches`. -/
structure MismatchRec where
  claimed_value : Rat
  claim_type : String
  raw_text : List Char
  position : Nat
  closest_reference : Option (Rat × Rat)
deriving Repr

/-- `HallucinationVerdict` (the `request_id`, `details` and `checked_at`
fields — a UUID, a log string with wall-clock timing, and a timestamp — are
not modelled). -/
structure HallucinationVerdict where
  mismatch_detected : Bool
  total_claims : Nat
  verified_claims : Nat
  unverified_claims : Nat
  mismatches : List MismatchRec
  verdict : String
  action_taken : String
  confidence : Rat
deriving Repr

/-- One iteration of the claim-checking loop in `verify`. -/
def checkStep (refs : List Rat) (acc : Nat × Nat × List MismatchRec) (c : NumClaim) :
    Nat × Nat × List MismatchRec :=
  if SAFE_CLAIM_TYPES.contains c.claim_type then (acc.1 + 1, acc.2.1, acc.2.2)
  else
    match findMatchingSource c.value refs with
    | some _ => (acc.1 + 1, acc.2.1, acc.2.2)
    | none =>
      (acc.1, acc.2.1 + 1,
       acc.2.2 ++ [⟨c.value, c.claim_type, c.raw, c.position, findClosest c.value refs⟩])

/-- The reference value set of one `verify` call: flattened tool outputs,
extended (`set.update`) with the flattened retrieved records. -/
def verifyRefs (tool_outputs : PyVal) (retrieved_data : Option (List PyVal)) : List Rat :=
  flatten_tool_values tool_outputs ++
    (match retrieved_data with
     | some records => records.flatMap (fun r => flatten_tool_values r)
     | none => [])

/-- The body of `HallucinationJudge.verify` after claim extraction and
reference building: the early return, the checking loop and the verdict
decision.  (The source builds the reference set after the early return;
both are pure, so the order is observationally irrelevant.) -/
def verdictOfCounts (total : Nat) (res : Nat × Nat × List MismatchRec) : HallucinationVerdict :=
  if res.2.1 = 0 then
    ⟨false, total, res.1, res.2.1, res.2.2, "clean", "none", 1⟩
  else if res.2.1 ≤ 1 ∧ total > 3 then
    ⟨true, total, res.1, res.2.1, res.2.2, "warning", "flagged",
     1 - (res.2.1 : Rat) / (total : Rat)⟩
  else
    ⟨true, total, res.1, res.2.1, res.2.2, "hallucination", "rejected",
     max 0 (1 - (res.2.1 : Rat) / ((max total 1 : Nat) : Rat))⟩

def verifyCore (claims : List NumClaim) (refs : List Rat) : HallucinationVerdict :=
  if claims.isEmpty then
    ⟨false, claims.length, 0, 0, [], "clean", "none", 1⟩
  else
    verdictOfCounts claims.length (claims.foldl (checkStep refs) (0, 0, []))

/-- `HallucinationJudge.verify`. -/
def verify (narrative : String) (tool_outputs : PyVal)
    (retrieved_data : Option (List PyVal)) : HallucinationVerdict :=
  verifyCore (extract_numeric_claims narrative.data) (verifyRefs tool_outputs retrieved_data)

/-- The verdict-decision rules exactly as the specification states them
(for refinement comparison with `verify`). -/
def verdictRules (total unverified : Nat) : String × String × Rat :=
  if unverified = 0 then ("clean", "none", 1)
  else if unverified ≤ 1 ∧ total > 3 then
    ("warning", "flagged", 1 - (unverified : Rat) / (total : Rat))
  else
    ("hallucination", "rejected", max 0 (1 - (unverified : Rat) / (total : Rat)))

/-! ## Response sanitizer -/

def DISCLAIMER : String :=
  "\n\n⚠️ *Some data points in this response could not be verified against our database. Please verify independently.*"

def REJECTION_MESSAGE : String :=
  "I apologize, but I cannot provide a reliable response for this query. Some of the data I generated could not be verified against our records. Please try rephrasing your query or asking about a specific aspect."

/-- The annotation inserted before a flagged raw substring. -/
def MARKER : String := "**[unverified]** "

/-- Python `s.replace(old, new)` with nonempty `old`: left-to-right,
non-overlapping, all occurrences.  Structural recursion on a fuel argument
(each step consumes at least one character, so fuel `s.length` is always
sufficient; the fuel-exhausted branch is unreachable under that call). -/
def pyReplaceAux (o : Char) (os new : List Char) : Nat → List Char → List Char
  | _, [] => []
  | 0, c :: rest => c :: rest
  | Nat.succ fuel, c :: rest =>
    if (o :: os).isPrefixOf (c :: rest) then
      new ++ pyReplaceAux o os new fuel (rest.drop os.length)
    else c :: pyReplaceAux o os new fuel rest

/-- Python `s.replace(old, new)` (the `old = ""` case inserts `new` at every
boundary; the sanitizer never calls it that way thanks to its `if raw:` guard). -/
def pyReplace (s old new : List Char) : List Char :=
  match old with
  | [] => new ++ s.flatMap (fun c => c :: new)
  | o :: os => pyReplaceAux o os new s.length s

/-- Python `s.split(sep)` with nonempty `sep` (accumulator is the reversed
current segment; fuel as in `pyReplaceAux`). -/
def pySplitAux (o : Char) (os : List Char) : Nat → List Char → List Char → List (List Char)
  | _, [], cur => [cur.reverse]
  | 0, _ :: _, cur => [cur.reverse]
  | Nat.succ fuel, c :: rest, cur =>
    if (o :: os).isPrefixOf (c :: rest) then
      cur.reverse :: pySplitAux o os fuel (rest.drop os.length) []
    else pySplitAux o os fuel rest (c :: cur)

def pySplit (s old : List Char) : List (List Char) :=
  match old with
  | [] => [s]
  | o :: os => pySplitAux o os s.length s []

/-- `ResponseSanitizer.sanitize`. -/
def sanitize (narrative : String) (v : HallucinationVerdict) : String :=
  if v.verdict = "clean" then narrative
  else if v.verdict = "hallucination" then REJECTION_MESSAGE
  else if v.verdict = "warning" then
    let flagged := v.mismatches.foldl
      (fun acc mm =>
        if mm.raw_text.isEmpty then acc
        else pyReplace acc mm.raw_text (MARKER.data ++ mm.raw_text))
      narrative.data
    String.mk flagged ++ DISCLAIMER
  else narrative

/-- Join segments with a separator (for the split/join reading of
"replace every occurrence"). -/
def joinWith (sep : List Char) : List (List Char) → List Char
  | [] => []
  | [x] => x
  | x :: y :: t => x ++ sep ++ joinWith sep (y :: t)

/-- "Replace every occurrence" stated independently as split-then-join with
the annotated substring, for refinement comparison with the sanitizer's
replace loop. -/
def specMarkAll (n raw : List Char) : List Char :=
  joinWith (MARKER.data ++ raw) (pySplit n raw)

/-- The warning branch as the amended specification words it: a blind
find-and-replace of every occurrence of each mismatch's raw substring,
then the fixed disclaimer suffix. -/
def sanitizeWarningSpec (narrative : String) (v : HallucinationVerdict) : String :=
  String.mk
    (v.mismatches.foldl
      (fun acc mm => if mm.raw_text.isEmpty then acc else specMarkAll acc mm.raw_text)
      narrative.data) ++ DISCLAIMER

/-- `s` occurs contiguously inside `whole`. -/
def SubSeg (s whole : List Char) : Prop := ∃ a b, whole = a ++ s ++ b

/-! ## Reranker: reciprocal rank fusion (`reciprocal_rank_fusion`) -/

def RRF_K : Nat := 60

/-- `scores[pid] = scores.get(pid, 0.0) + d` on an insertion-ordered dict:
an existing key keeps its position, a new key is appended. -/
def addScore (acc : List (String × Rat)) (pid : String) (d : Rat) : List (String × Rat) :=
  match acc with
  | [] => [(pid, d)]
  | (k, v) :: t => if k = pid then (k, v + d) :: t else (k, v) :: addScore t pid d

/-- The accumulated score of one identifier (`scores.get(pid, 0.0)`). -/
def lookupScore : List (String × Rat) → String → Rat
  | [], _ => 0
  | (k, v) :: t, p => if k = p then v else lookupScore t p

/-- The inner loop `for rank, pid in enumerate(rank_list, start=1)`. -/
def processRanked (w : Rat) : List String → Nat → List (String × Rat) → List (String × Rat)
  | [], _, acc => acc
  | p :: ps, rank, acc =>
    processRanked w ps (rank + 1) (addScore acc p (w * (1 / ((RRF_K : Rat) + (rank : Rat)))))

/-- Descending comparison on the score component; Python
`sorted(..., key=lambda x: x[1], reverse=True)` is a stable descending sort. -/
def sndDesc (a b : String × Rat) : Bool := b.2 ≤ a.2

def reciprocal_rank_fusion (vector_hits keyword_hits spatial_hits : List String) :
    List (String × Rat) :=
  let acc := processRanked (6/10) spatial_hits 1
    (processRanked (8/10) keyword_hits 1
      (processRanked 1 vector_hits 1 []))
  acc.mergeSort sndDesc

/-- Keep the first occurrence of every element (order of first encounter),
tracking already-seen elements. -/
def dedupFrom {α : Type} [DecidableEq α] (seen : List α) : List α → List α
  | [] => []
  | x :: xs => if x ∈ seen then dedupFrom seen xs else x :: dedupFrom (seen ++ [x]) xs

def dedupFirst {α : Type} [DecidableEq α] (l : List α) : List α := dedupFrom [] l

/-- The specification's score formula: the weighted sum of `1/(K + r)` over
every 1-based rank `r` at which `pid` occurs in a list, starting at rank `r0`. -/
def rankSum (l : List String) (r0 : Nat) (pid : String) : Rat :=
  match l with
  | [] => 0
  | x :: xs => (if x = pid then 1 / ((RRF_K : Rat) + (r0 : Rat)) else 0) + rankSum xs (r0 + 1) pid

/-- The specification's fused score of one identifier. -/
def specScore (v k s : List String) (pid : String) : Rat :=
  1 * rankSum v 1 pid + (8/10) * rankSum k 1 pid + (6/10) * rankSum s 1 pid

/-- Fusion as the specification words it: identifiers in order of first
encounter (vector, then keyword, then spatial), each paired with its summed
score, stably sorted descending by score. -/
def rrfSpec (v k s : List String) : List (String × Rat) :=
  ((dedupFirst (v ++ k ++ s)).map (fun pid => (pid, specScore v k s pid))).mergeSort sndDesc

/-! ## Reranker: feature-based cross scoring (`cross_score`) -/

/-- Candidate records are Python dicts: insertion-ordered association lists. -/
def pyGet (d : List (String × PyVal)) (k : String) : Option PyVal :=
  (d.find? (fun kv => kv.1 = k)).map (fun kv => kv.2)

def pyTruthy : PyVal → Bool
  | PyVal.num q => q ≠ 0
  | PyVal.str s => s ≠ ""
  | PyVal.pynone => false
  | PyVal.arr xs => !xs.isEmpty
  | PyVal.dict es => !es.isEmpty

/-- `{**prop, k: v}`: an existing key keeps its position with the new value,
otherwise the pair is appended. -/
def dictSet : List (String × PyVal) → String → PyVal → List (String × PyVal)
  | [], k, v => [(k, v)]
  | (k', v') :: t, k, v => if k' = k then (k, v) :: t else (k', v') :: dictSet t k v

/-- A candidate with the given key removed (for frame statements). -/
def dictErase (d : List (String × PyVal)) (k : String) : List (String × PyVal) :=
  d.filter (fun kv => kv.1 ≠ k)

/-- Python `str.lower()` (ASCII semantics). -/
def lowerStr (s : String) : String := String.mk (s.data.map Char.toLower)

/-- `re.findall(r'\b\w+\b', text)`: maximal runs of word characters
(accumulator holds the reversed current run). -/
def tokenizeAux : List Char → List Char → List (List Char)
  | [], cur => if cur.isEmpty then [] else [cur.reverse]
  | c :: r, cur =>
    if isWordCh c then tokenizeAux r (c :: cur)
    else if cur.isEmpty then tokenizeAux r []
    else cur.reverse :: tokenizeAux r []

def pyTokens (l : List Char) : List (List Char) := tokenizeAux l []

/-- Python `needle in hay` on strings (contiguous containment). -/
def containsSeg : List Char → List Char → Bool
  | [], needle => needle.isEmpty
  | c :: t, needle => needle.isPrefixOf (c :: t) || containsSeg t needle

/-- `(\d+(?:\.\d+)?)\s*(?:lakh|lakhs|l\b)` on the lowercased query
(the `lakhs` alternative is subsumed by `lakh`). -/
def matchLakhQ : Matcher := fun s => do
  let (g, st) ← mSpan1 isDigitCh ⟨s, 0⟩
  let (g, st) := mFracOpt (g, st)
  let st := mSpan0 isSpaceCh st
  match mLitCIs litLakh st with
  | some st2 => pure (st2.used, g)
  | none =>
    match mCharP (fun c => ciEq c 'l') st with
    | some st2 => if lookNoWord st2.rem then pure (st2.used, g) else none
    | none => none

/-- `(\d+(?:\.\d+)?)\s*(?:cr|crore|crores)` (the first alternative `cr`
subsumes the other two). -/
def matchCrQ : Matcher := fun s => do
  let (g, st) ← mSpan1 isDigitCh ⟨s, 0⟩
  let (g, st) := mFracOpt (g, st)
  let st := mSpan0 isSpaceCh st
  let st ← mLitCIs litCr st
  pure (st.used, g)

def litBhkQ : String := "bhk"
def litBedroom : String := "bedroom"
def litBed : String := "bed"

/-- `(\d)\s*(?:bhk|bedroom|bed)`. -/
def matchBhkQ : Matcher := fun s =>
  match s with
  | c :: r =>
    if isDigitCh c then do
      let st := mSpan0 isSpaceCh (MSt.mk r 1)
      let st ← mLitCIs litBhkQ st <|> mLitCIs litBedroom st <|> mLitCIs litBed st
      pure (st.used, [c])
    else none
  | [] => none

/-- `re.search`: the match at the leftmost feasible start position. -/
def searchFirst (m : Matcher) : List Char → Option (Nat × List Char)
  | [] => none
  | c :: r =>
    match m (c :: r) with
    | some x => some x
    | none => searchFirst m r

/-- Budget extraction from the lowercased query: lakh pattern first,
then crore; the captured number scaled to rupees. -/
def queryBudget (ql : List Char) : Option Rat :=
  match searchFirst matchLakhQ ql with
  | some (_, g) => (pyFloat g).map (fun x => x * 100000)
  | none =>
    match searchFirst matchCrQ ql with
    | some (_, g) => (pyFloat g).map (fun x => x * 10000000)
    | none => none

/-- Target bedroom count from the lowercased query (`int` of one digit). -/
def queryBhk (ql : List Char) : Option Rat :=
  match searchFirst matchBhkQ ql with
  | some (_, g) => pyFloat g
  | none => none

/-- `prop.get(k) or ""`, lowercased.  A truthy non-string value would raise
in the source (type-contract violation); modelled as `""`. -/
def strField (d : List (String × PyVal)) (k : String) : List Char :=
  match pyGet d k with
  | some (PyVal.str s) => (lowerStr s).data
  | _ => []

/-- `prop.get("combined_score") or 0.0`.  A numeric falsy value yields the
same `0.0`; a truthy non-number would raise downstream (contract violation),
modelled as `0`. -/
def baseScore (d : List (String × PyVal)) : Rat :=
  match pyGet d ("combined_score") with
  | some (PyVal.num q) => q
  | _ => 0

/-- Signal 1: token overlap (sets of word tokens; sizes of Python sets). -/
def tokenOverlapSignal (qt pt : List (List Char)) : Rat :=
  if !qt.isEmpty ∧ !pt.isEmpty then
    let qset := dedupFirst qt
    let inter := (qset.filter (fun t => pt.contains t)).length
    ((inter : Rat) / ((qset.length : Rat) + 1)) * (4/10)
  else 0

/-- Signal 2: budget proximity.  Guarded by truthiness of both the parsed
budget and the price; a non-numeric price would raise in `float()`
(contract violation), modelled as no signal. -/
def budgetSignal (budget : Option Rat) (priceVal : Option PyVal) : Rat :=
  match budget, priceVal with
  | some b, some (PyVal.num p) =>
    if b ≠ 0 ∧ p ≠ 0 then
      if p ≤ b then (3/10) * (p / b)
      else -(min (2/10) ((p - b) / b * (5/10)))
    else 0
  | _, _ => 0

/-- Signal 3: bedroom match.  Guarded by truthiness of the target and
presence (`is not None`) of the field; a non-numeric bedroom count would
raise in `abs` (contract violation), modelled as no signal. -/
def bhkSignal (target : Option Rat) (bedroomsVal : Option PyVal) : Rat :=
  match target, bedroomsVal with
  | some t, some bv =>
    if t ≠ 0 then
      match bv with
      | PyVal.num b => if b = t then 25/100 else if |b - t| = 1 then 1/10 else 0
      | _ => 0
    else 0
  | _, _ => 0

/-- Signal 4: exact locality containment in the query. -/
def localitySignal (locality ql : List Char) : Rat :=
  if !locality.isEmpty ∧ containsSeg ql locality then 35/100 else 0

def getTruthy (d : List (String × PyVal)) (k : String) : Bool :=
  match pyGet d k with
  | some v => pyTruthy v
  | none => false

/-- Signal 5: verified / featured boosts. -/
def trustSignal (d : List (String × PyVal)) : Rat :=
  (if getTruthy d ("is_verified") then 1/10 else 0) +
  (if getTruthy d ("is_featured") then 5/100 else 0)

/-- The accumulated score of one candidate for one query (the source adds
the signals sequentially to `score`; each signal is independent of the
running total, so the total is their sum). -/
def computeScore (query : String) (prop : List (String × PyVal)) : Rat :=
  let ql := (lowerStr query).data
  let qt := pyTokens ql
  let title := strField prop ("title")
  let locality := strField prop ("locality")
  let pt := pyTokens (title ++ ' ' :: locality)
  baseScore prop
    + tokenOverlapSignal qt pt
    + budgetSignal (queryBudget ql) (pyGet prop ("price"))
    + bhkSignal (queryBhk ql) (pyGet prop ("bedrooms"))
    + localitySignal locality ql
    + trustSignal prop

/-- The sort key `x["cross_score"]` of a scored candidate. -/
def crossKey (d : List (String × PyVal)) : Rat :=
  match pyGet d ("cross_score") with
  | some (PyVal.num q) => q
  | _ => 0

def scoreDesc (a b : List (String × PyVal)) : Bool := crossKey b ≤ crossKey a

/-- `cross_score`: build `{**prop, "cross_score": round(score, 6)}` per
candidate and stably sort descending by that key. -/
def cross_score (query : String) (properties : List (List (String × PyVal))) :
    List (List (String × PyVal)) :=
  let scored := properties.map (fun p =>
    dictSet p ("cross_score") (PyVal.num (roundTo (computeScore query p) 6)))
  scored.mergeSort scoreDesc

/-!
## Theorems

The rational operations of the standard library and `mergeSort` are sealed
against definitional unfolding; concrete evaluations below need them
unfolded.
-/

unseal Rat.add Rat.sub Rat.mul Rat.inv Rat.ofScientific List.merge List.mergeSort

set_option maxRecDepth 100000

/-- One loop iteration verifies or rejects its claim exactly once. -/
theorem checkStep_sum (refs : List Rat) (acc : Nat × Nat × List MismatchRec) (c : NumClaim) :
    (checkStep refs acc c).1 + (checkStep refs acc c).2.1 = acc.1 + acc.2.1 + 1 := by
  unfold checkStep
  split
  · dsimp only
    omega
  · split <;> (dsimp only; omega)

/-- The claim-checking loop verifies or rejects each claim exactly once, so
the two counters always add up to the number of processed claims. -/
theorem checkFold_counts (refs : List Rat) :
    ∀ (claims : List NumClaim) (a b : Nat) (m : List MismatchRec),
      (claims.foldl (checkStep refs) (a, b, m)).1 +
        (claims.foldl (checkStep refs) (a, b, m)).2.1 = a + b + claims.length := by
  intro claims
  induction claims with
  | nil => intro a b m; simp
  | cons c t ih =>
    intro a b m
    simp only [List.foldl_cons, List.length_cons]
    have hs := checkStep_sum refs (a, b, m) c
    rcases hstep : checkStep refs (a, b, m) c with ⟨a', b', m'⟩
    rw [hstep] at hs
    simp at hs
    rw [ih a' b' m']
    omega

/-- C9: every verdict produced by a verification call satisfies
`total_claims = verified_claims + unverified_claims`, for every narrative
and reference data input (including the zero-claims early return). -/
theorem verifyCore_counts (claims : List NumClaim) (refs : List Rat) :
    (verifyCore claims refs).total_claims =
      (verifyCore claims refs).verified_claims + (verifyCore claims refs).unverified_claims := by
  have hcnt := checkFold_counts refs claims 0 0 []
  rcases hres : claims.foldl (checkStep refs) (0, 0, []) with ⟨vv, uu, mm⟩
  rw [hres] at hcnt
  simp at hcnt
  unfold verifyCore verdictOfCounts
  rw [hres]
  by_cases h : claims.isEmpty
  · simp [List.isEmpty_iff.mp h]
  · rw [if_neg h]
    split_ifs <;> simp <;> omega

theorem claim_C9_count_invariant (narrative : String) (tool_outputs : PyVal)
    (retrieved_data : Option (List PyVal)) :
    (verify narrative tool_outputs retrieved_data).total_claims =
      (verify narrative tool_outputs retrieved_data).verified_claims +
        (verify narrative tool_outputs retrieved_data).unverified_claims :=
  verifyCore_counts _ _

/-- The decision step of `verify` agrees with the specification's rules. -/
theorem verifyCore_rules (claims : List NumClaim) (refs : List Rat) :
    ((verifyCore claims refs).verdict, (verifyCore claims refs).action_taken,
      (verifyCore claims refs).confidence) =
      verdictRules (verifyCore claims refs).total_claims
        (verifyCore claims refs).unverified_claims := by
  have hcnt := checkFold_counts refs claims 0 0 []
  rcases hres : claims.foldl (checkStep refs) (0, 0, []) with ⟨vv, uu, mm⟩
  rw [hres] at hcnt
  simp at hcnt
  by_cases h : claims.isEmpty
  · have h0 : claims = [] := List.isEmpty_iff.mp h
    subst h0
    simp [verifyCore, verdictRules]
  · have hlen : 1 ≤ claims.length := by
      cases hc : claims with
      | nil => rw [hc] at h; simp at h
      | cons x xs => simp [hc]
    have hcore : verifyCore claims refs = verdictOfCounts claims.length (vv, uu, mm) := by
      unfold verifyCore
      rw [if_neg h, hres]
    rw [hcore]
    by_cases h2 : uu = 0
    · have e1 : verdictOfCounts claims.length (vv, uu, mm) =
          ⟨false, claims.length, vv, uu, mm, "clean", "none", 1⟩ := by
        unfold verdictOfCounts
        rw [if_pos h2]
      rw [e1]
      simp [verdictRules, h2]
    · by_cases h3 : uu ≤ 1 ∧ claims.length > 3
      · have e2 : verdictOfCounts claims.length (vv, uu, mm) =
            ⟨true, claims.length, vv, uu, mm, "warning", "flagged",
             1 - (uu : Rat) / (claims.length : Rat)⟩ := by
          unfold verdictOfCounts
          rw [if_neg h2, if_pos h3]
        rw [e2]
        simp [verdictRules, h2, h3]
      · have hmax : max claims.length 1 = claims.length := by omega
        have e3 : verdictOfCounts claims.length (vv, uu, mm) =
            ⟨true, claims.length, vv, uu, mm, "hallucination", "rejected",
             max 0 (1 - (uu : Rat) / ((max claims.length 1 : Nat) : Rat))⟩ := by
          unfold verdictOfCounts
          rw [if_neg h2, if_neg h3]
        rw [e3]
        simp [verdictRules, h2, h3, hmax]

/-- C1: the verdict, action and confidence of every verification are decided
from the counted claims by exactly the specified rules, in order:
`unverified == 0` → clean/none/1; `unverified ≤ 1 ∧ total > 3` →
warning/flagged/`1 − u/t`; otherwise hallucination/rejected/`max 0 (1 − u/t)`;
in particular (5,1) → warning with confidence 4/5, (5,2) → hallucination with
confidence 3/5, (0,0) → clean, (3,1) → hallucination with confidence 2/3. -/
theorem claim_C1_verdict_rules (narrative : String) (tool_outputs : PyVal)
    (retrieved_data : Option (List PyVal)) :
    ((verify narrative tool_outputs retrieved_data).verdict,
     (verify narrative tool_outputs retrieved_data).action_taken,
     (verify narrative tool_outputs retrieved_data).confidence) =
      verdictRules (verify narrative tool_outputs retrieved_data).total_claims
        (verify narrative tool_outputs retrieved_data).unverified_claims
    ∧ verdictRules 5 1 = ("warning", "flagged", 4/5)
    ∧ verdictRules 5 2 = ("hallucination", "rejected", 3/5)
    ∧ verdictRules 0 0 = ("clean", "none", 1)
    ∧ verdictRules 3 1 = ("hallucination", "rejected", 2/3) := by
  refine ⟨verifyCore_rules _ _, by decide, by decide, by decide, by decide⟩

/-- C2 (counterexample): the original claim asserts that for *every*
narrative with a hallucination verdict, no substring of length > 3 of the
narrative appears in the sanitized output.  The narrative
`"score: 999. Please try again."` yields a hallucination verdict (one
unverified `score` claim against an empty reference set), yet its length-10
substring `"Please try"` occurs in the sanitized output, because the fixed
rejection message itself contains `"Please try"`. -/
theorem claim_C2_counterexample :
    (verify ("score: 999. Please try again.") (PyVal.dict []) none).verdict = "hallucination"
    ∧ 3 < ("Please try").length
    ∧ SubSeg ("Please try").data ("score: 999. Please try again.").data
    ∧ SubSeg ("Please try").data
        (sanitize ("score: 999. Please try again.")
          (verify ("score: 999. Please try again.") (PyVal.dict []) none)).data := by
  have hmsg : sanitize ("score: 999. Please try again.")
      (verify ("score: 999. Please try again.") (PyVal.dict []) none) = REJECTION_MESSAGE := by
    unfold sanitize
    rw [(by decide : (verify ("score: 999. Please try again.") (PyVal.dict []) none).verdict
          = "hallucination")]
    rw [if_neg (by decide), if_pos rfl]
  refine ⟨by decide, by decide,
    ⟨("score: 999. ").data, (" again.").data, by decide⟩, ?_⟩
  rw [hmsg]
  exact ⟨("I apologize, but I cannot provide a reliable response for this query. Some of the data I generated could not be verified against our records. ").data,
    (" rephrasing your query or asking about a specific aspect.").data, by decide⟩

/-- C2 (amended): for every narrative whose verdict is hallucination, the
sanitizer discards the narrative and returns the fixed rejection message,
independently of the narrative; consequently a substring of the original
narrative appears in the output only when it is already a substring of the
fixed rejection message itself (which can happen, so the substring-freedom
property does not hold for every possible narrative). -/
theorem claim_C2_amended (n : String) (v : HallucinationVerdict)
    (h : v.verdict = "hallucination") :
    sanitize n v = REJECTION_MESSAGE
    ∧ ∀ s : List Char, SubSeg s (sanitize n v).data → SubSeg s REJECTION_MESSAGE.data := by
  have h1 : sanitize n v = REJECTION_MESSAGE := by
    unfold sanitize
    rw [h]
    rw [if_neg (by decide), if_pos rfl]
  exact ⟨h1, fun s hs => h1 ▸ hs⟩

/-- C2 (witness): the amended theorem applied to the concrete hallucinated
narrative above. -/
theorem claim_C2_witness :
    sanitize ("score: 999. Please try again.")
      (verify ("score: 999. Please try again.") (PyVal.dict []) none) = REJECTION_MESSAGE :=
  (claim_C2_amended ("score: 999. Please try again.")
    (verify ("score: 999. Please try again.") (PyVal.dict []) none) (by decide)).1

/-- C8: the scanner applies every pattern independently and keeps
overlapping captures: `"CAGR of 8.45%"` yields exactly two claims, one
`percentage` and one `cagr`, both with value 8.45. -/
theorem claim_C8_duplicate_capture :
    extract_numeric_claims ("CAGR of 8.45%").data =
      [⟨"percentage", 8.45, ("8.45%").data, 8⟩,
       ⟨"cagr", 8.45, ("CAGR of 8.45%").data, 0⟩] := by
  decide

/-- C4 (counterexample): the scanner's output is not sorted by start offset:
in `"5% then Rs 9"` the `price` pattern (earlier in the table) matches at
offset 8 while the `percentage` pattern matches at offset 0, and the claim
list carries positions `[8, 0]`. -/
theorem claim_C4_counterexample :
    (extract_numeric_claims ("5% then Rs 9").data).map (fun c => c.position) = [8, 0]
    ∧ ¬ List.Sorted (· ≤ ·)
        ((extract_numeric_claims ("5% then Rs 9").data).map (fun c => c.position)) := by
  refine ⟨by decide, fun hs => ?_⟩
  rw [(by decide : (extract_numeric_claims ("5% then Rs 9").data).map (fun c => c.position)
        = [8, 0])] at hs
  have := List.rel_of_sorted_cons hs 0 (by simp)
  omega

/-- Every match the scanner reports at scan state `(pos, skip)` starts at or
after `pos + skip`. -/
theorem findAux_pos_lb (m : Matcher) :
    ∀ (text : List Char) (pos skip : Nat) (rm : RawMatch),
      rm ∈ findAux m text pos skip → pos + skip ≤ rm.pos := by
  intro text
  induction text with
  | nil =>
    intro pos skip rm h
    simp [findAux] at h
  | cons c rest ih =>
    intro pos skip rm h
    cases skip with
    | zero =>
      cases hm : m (c :: rest) with
      | some lg =>
        rcases lg with ⟨len, g⟩
        rw [findAux, hm] at h
        rcases List.mem_cons.mp h with h1 | h1
        · subst h1
          dsimp only
          omega
        · have := ih (pos + 1) (max len 1 - 1) rm h1
          omega
      | none =>
        rw [findAux, hm] at h
        have := ih (pos + 1) 0 rm h
        omega
    | succ k =>
      rw [findAux] at h
      have := ih (pos + 1) k rm h
      omega

/-- The matches of one pattern are reported in strictly increasing order of
start offset. -/
theorem findAux_sorted (m : Matcher) :
    ∀ (text : List Char) (pos skip : Nat),
      List.Pairwise (· < ·) ((findAux m text pos skip).map (fun rm => rm.pos)) := by
  intro text
  induction text with
  | nil =>
    intro pos skip
    simp [findAux]
  | cons c rest ih =>
    intro pos skip
    cases skip with
    | zero =>
      cases hm : m (c :: rest) with
      | some lg =>
        rcases lg with ⟨len, g⟩
        rw [findAux, hm]
        simp only [List.map_cons]
        refine List.Pairwise.cons ?_ (ih (pos + 1) (max len 1 - 1))
        intro a ha
        rcases List.mem_map.mp ha with ⟨rm', hrm', rfl⟩
        have := findAux_pos_lb m rest (pos + 1) (max len 1 - 1) rm' hrm'
        omega
      | none =>
        rw [findAux, hm]
        exact ih (pos + 1) 0
    | succ k =>
      rw [findAux]
      exact ih (pos + 1) k

/-- Dropping unparsable matches keeps positions a sublist of the match
positions. -/
theorem patternClaims_posMap_sublist (m : Matcher) (ty : String) (text : List Char) :
    ((patternClaims m ty text).map (fun c => c.position)).Sublist
      ((findMatches m text).map (fun rm => rm.pos)) := by
  unfold patternClaims
  generalize findMatches m text = l
  induction l with
  | nil => simp
  | cons rm t ih =>
    simp only [List.filterMap_cons, List.map_cons]
    cases h : pyFloat (stripCommas rm.grp) with
    | some v =>
      simp only [h, List.map_cons]
      exact List.Sublist.cons₂ _ ih
    | none =>
      simp only [h]
      exact List.Sublist.cons _ ih

/-- C4 (amended): the scanner's claim list is the concatenation, in the fixed
pattern-table order, of the per-pattern claim lists; within each single
pattern the claims are in strictly increasing offset order, but the overall
list is not globally sorted by offset. -/
theorem claim_C4_amended (text : List Char) (m : Matcher) (ty : String) :
    extract_numeric_claims text
        = NUMERIC_PATTERNS.flatMap (fun pc => patternClaims pc.1 pc.2 text)
    ∧ List.Sorted (· < ·) ((patternClaims m ty text).map (fun c => c.position)) :=
  ⟨rfl, List.Pairwise.sublist (patternClaims_posMap_sublist m ty text) (findAux_sorted m text 0 0)⟩

/-- Splitting always yields at least one (possibly empty) segment. -/
theorem pySplitAux_ne_nil (o : Char) (os : List Char) :
    ∀ (fuel : Nat) (s cur : List Char), pySplitAux o os fuel s cur ≠ [] := by
  intro fuel
  induction fuel with
  | zero =>
    intro s cur
    cases s <;> simp [pySplitAux]
  | succ fuel ih =>
    intro s cur
    cases s with
    | nil => simp [pySplitAux]
    | cons c rest =>
      rw [pySplitAux]
      split
      · exact List.cons_ne_nil _ _
      · exact ih rest (c :: cur)

theorem joinWith_cons_of_ne_nil (sep x : List Char) (t : List (List Char)) (h : t ≠ []) :
    joinWith sep (x :: t) = x ++ sep ++ joinWith sep t := by
  cases t with
  | nil => exact absurd rfl h
  | cons y t' => rfl

/-- The replace loop and split-then-join compute the same string. -/
theorem joinWith_pySplitAux (o : Char) (os new : List Char) :
    ∀ (fuel : Nat) (s cur : List Char), s.length ≤ fuel →
      joinWith new (pySplitAux o os fuel s cur) = cur.reverse ++ pyReplaceAux o os new fuel s := by
  intro fuel
  induction fuel with
  | zero =>
    intro s cur h
    have hs : s = [] := List.eq_nil_of_length_eq_zero (by omega)
    subst hs
    simp [pySplitAux, pyReplaceAux, joinWith]
  | succ fuel ih =>
    intro s cur h
    cases s with
    | nil => simp [pySplitAux, pyReplaceAux, joinWith]
    | cons c rest =>
      rw [pySplitAux, pyReplaceAux]
      by_cases hp : (o :: os).isPrefixOf (c :: rest) = true
      · rw [if_pos hp, if_pos hp]
        rw [joinWith_cons_of_ne_nil _ _ _ (pySplitAux_ne_nil o os fuel _ [])]
        rw [ih (rest.drop os.length) []
          (by
            have h1 : rest.length ≤ fuel := by simp at h; omega
            have h2 := List.length_drop os.length rest
            omega)]
        simp [List.append_assoc]
      · rw [if_neg hp, if_neg hp]
        rw [ih rest (c :: cur) (by simp at h; omega)]
        simp [List.reverse_cons, List.append_assoc]

/-- Python `replace` with a nonempty pattern equals split-then-join. -/
theorem pyReplace_eq_splitJoin (s old new : List Char) (h : old ≠ []) :
    pyReplace s old new = joinWith new (pySplit s old) := by
  cases old with
  | nil => exact absurd rfl h
  | cons o os =>
    unfold pyReplace pySplit
    rw [joinWith_pySplitAux o os new s.length s [] le_rfl]
    simp

theorem foldl_congr_fun {α β : Type} (f g : α → β → α) (h : ∀ a b, f a b = g a b) :
    ∀ (l : List β) (a : α), l.foldl f a = l.foldl g a := by
  intro l
  induction l with
  | nil =>
    intro a
    rfl
  | cons x t ih =>
    intro a
    rw [List.foldl_cons, List.foldl_cons, h, ih]

/-- C3 (amended): for a warning verdict the sanitizer performs, for each
mismatch in order, a blind find-and-replace of *every* occurrence of its raw
substring with the `**[unverified]**`-annotated form — so an identical
substring occurring elsewhere in the narrative is also marked — and appends
the fixed disclaimer suffix.  (The original claim's offset-based splice is
not what the code does.) -/
theorem claim_C3_amended (n : String) (v : HallucinationVerdict)
    (h : v.verdict = "warning") :
    sanitize n v = sanitizeWarningSpec n v := by
  unfold sanitize sanitizeWarningSpec
  rw [h]
  rw [if_neg (by decide), if_neg (by decide), if_pos rfl]
  have hstep : ∀ (acc : List Char) (mm : MismatchRec),
      (if mm.raw_text.isEmpty then acc
       else pyReplace acc mm.raw_text (MARKER.data ++ mm.raw_text))
        = (if mm.raw_text.isEmpty then acc else specMarkAll acc mm.raw_text) := by
    intro acc mm
    by_cases he : mm.raw_text.isEmpty
    · simp [he]
    · rw [if_neg he, if_neg he]
      unfold specMarkAll
      exact pyReplace_eq_splitJoin acc mm.raw_text (MARKER.data ++ mm.raw_text)
        (by simpa [List.isEmpty_iff] using he)
  rw [foldl_congr_fun _ _ hstep]

/-- C3 (counterexample): on the narrative
`"Growth 25%. Rates 1.25%, 3.5%, 7.5%, 9.5%."` with reference values
`{1.25, 3.5, 7.5, 9.5}`, the verdict is warning with the single mismatch
`"25%"` recorded at offset 7; the sanitizer nevertheless also marks the
occurrence of `"25%"` inside the verified `"1.25%"` at offset 20 — the
output contains `"1.**[unverified]** 25%"` — contradicting the claim that
an identical substring occurring elsewhere is left unmarked. -/
theorem claim_C3_counterexample :
    (verify ("Growth 25%. Rates 1.25%, 3.5%, 7.5%, 9.5%.")
        (PyVal.dict [("rates", PyVal.arr [PyVal.num (5/4), PyVal.num (7/2),
          PyVal.num (15/2), PyVal.num (19/2)])]) none).verdict = "warning"
    ∧ (verify ("Growth 25%. Rates 1.25%, 3.5%, 7.5%, 9.5%.")
        (PyVal.dict [("rates", PyVal.arr [PyVal.num (5/4), PyVal.num (7/2),
          PyVal.num (15/2), PyVal.num (19/2)])]) none).mismatches.map
            (fun mm => (mm.raw_text, mm.position)) = [(("25%").data, 7)]
    ∧ SubSeg ("1.**[unverified]** 25%").data
        (sanitize ("Growth 25%. Rates 1.25%, 3.5%, 7.5%, 9.5%.")
          (verify ("Growth 25%. Rates 1.25%, 3.5%, 7.5%, 9.5%.")
            (PyVal.dict [("rates", PyVal.arr [PyVal.num (5/4), PyVal.num (7/2),
              PyVal.num (15/2), PyVal.num (19/2)])]) none)).data := by
  refine ⟨by decide, by decide,
    ⟨("Growth **[unverified]** 25%. Rates ").data,
     ((", 3.5%, 7.5%, 9.5%.") ++ DISCLAIMER).data, by decide⟩⟩

/-- C3 (witness): the amended theorem applied to the concrete warning
scenario above. -/
theorem claim_C3_witness :
    sanitize ("Growth 25%. Rates 1.25%, 3.5%, 7.5%, 9.5%.")
      (verify ("Growth 25%. Rates 1.25%, 3.5%, 7.5%, 9.5%.")
        (PyVal.dict [("rates", PyVal.arr [PyVal.num (5/4), PyVal.num (7/2),
          PyVal.num (15/2), PyVal.num (19/2)])]) none)
    = sanitizeWarningSpec ("Growth 25%. Rates 1.25%, 3.5%, 7.5%, 9.5%.")
      (verify ("Growth 25%. Rates 1.25%, 3.5%, 7.5%, 9.5%.")
        (PyVal.dict [("rates", PyVal.arr [PyVal.num (5/4), PyVal.num (7/2),
          PyVal.num (15/2), PyVal.num (19/2)])]) none) :=
  claim_C3_amended _ _ (by decide)

theorem joinedVals_cons (k : String) (vs : List Rat) (t : List (String × List Rat)) :
    joinedVals ((k, vs) :: t) = vs ++ joinedVals t := rfl

/-- Appending a value to a bucket only adds that value to the registry. -/
theorem mem_joinedVals_addVal (x : Rat) (m : List (String × List Rat)) (key : String) (v : Rat) :
    x ∈ joinedVals (addVal m key v) ↔ x ∈ joinedVals m ∨ x = v := by
  induction m with
  | nil => simp [addVal, joinedVals]
  | cons kv t ih =>
    rcases kv with ⟨k, vs⟩
    by_cases h : k = key
    · rw [addVal, if_pos h, joinedVals_cons, joinedVals_cons]
      simp
      tauto
    · rw [addVal, if_neg h, joinedVals_cons, joinedVals_cons]
      simp only [List.mem_append, ih]
      tauto

mutual

/-- The recursive walk adds exactly the numeric leaves to the registry. -/
theorem mem_extractRec : ∀ (obj : PyVal) (pfx : String) (m : List (String × List Rat)) (x : Rat),
    x ∈ joinedVals (extractRec obj pfx m) ↔ x ∈ joinedVals m ∨ x ∈ pyLeaves obj
  | PyVal.num q, pfx, m, x => by
    rw [extractRec, mem_joinedVals_addVal]
    simp [pyLeaves]
  | PyVal.str s, pfx, m, x => by
    rw [extractRec]
    simp [pyLeaves]
  | PyVal.pynone, pfx, m, x => by
    rw [extractRec]
    simp [pyLeaves]
  | PyVal.arr xs, pfx, m, x => by
    rw [extractRec, pyLeaves]
    exact mem_extractArr xs 0 pfx m x
  | PyVal.dict es, pfx, m, x => by
    rw [extractRec, pyLeaves]
    exact mem_extractDict es pfx m x

theorem mem_extractDict : ∀ (es : List (String × PyVal)) (pfx : String)
    (m : List (String × List Rat)) (x : Rat),
    x ∈ joinedVals (extractDict es pfx m) ↔ x ∈ joinedVals m ∨ x ∈ pyLeavesDict es
  | [], pfx, m, x => by
    rw [extractDict]
    simp [pyLeavesDict]
  | (k, v) :: t, pfx, m, x => by
    rw [extractDict, pyLeavesDict]
    rw [mem_extractDict t pfx _ x, mem_extractRec v _ m x]
    simp only [List.mem_append]
    tauto

theorem mem_extractArr : ∀ (xs : List PyVal) (i : Nat) (pfx : String)
    (m : List (String × List Rat)) (x : Rat),
    x ∈ joinedVals (extractArr xs i pfx m) ↔ x ∈ joinedVals m ∨ x ∈ pyLeavesArr xs
  | [], i, pfx, m, x => by
    rw [extractArr]
    simp [pyLeavesArr]
  | v :: t, i, pfx, m, x => by
    rw [extractArr, pyLeavesArr]
    rw [mem_extractArr t (i + 1) pfx _ x, mem_extractRec v _ m x]
    simp only [List.mem_append]
    tauto

end

/-- Membership in the flat reference set factors through the registry. -/
theorem mem_flatten_iff (t : PyVal) (x : Rat) :
    x ∈ flatten_tool_values t ↔
      ∃ v, v ∈ joinedVals (extract_tool_values t) ∧ x ∈ withTransforms v := by
  unfold flatten_tool_values joinedVals
  simp only [List.mem_flatMap]
  constructor
  · rintro ⟨kv, hkv, v, hv, hx⟩
    exact ⟨v, ⟨kv, hkv, hv⟩, hx⟩
  · rintro ⟨v, ⟨kv, hkv, hv⟩, hx⟩
    exact ⟨kv, hkv, v, hv, hx⟩

/-- C6: the reference value set contains every numeric leaf `v` of the
nested input, and for `v ≠ 0` also the six derived transforms
`round(v,2)`, `round(v,4)`, `round(v·100,2)`, `round(v·100,4)`,
`round(v/100000,2)`, `round(v/10000000,2)`; in particular a stored value
8,500,000 makes claims of 85 (lakh form) and 0.85 (crore form) verify. -/
theorem claim_C6_reference_transforms (t : PyVal) (v : Rat) (h : v ∈ pyLeaves t) :
    (v ∈ flatten_tool_values t
     ∧ (v ≠ 0 →
        roundTo v 2 ∈ flatten_tool_values t
        ∧ roundTo v 4 ∈ flatten_tool_values t
        ∧ roundTo (v * 100) 2 ∈ flatten_tool_values t
        ∧ roundTo (v * 100) 4 ∈ flatten_tool_values t
        ∧ roundTo (v / 100000) 2 ∈ flatten_tool_values t
        ∧ roundTo (v / 10000000) 2 ∈ flatten_tool_values t))
    ∧ ((85 : Rat) ∈ flatten_tool_values (PyVal.dict [("price", PyVal.num 8500000)])
       ∧ (0.85 : Rat) ∈ flatten_tool_values (PyVal.dict [("price", PyVal.num 8500000)])
       ∧ (findMatchingSource 85
            (flatten_tool_values (PyVal.dict [("price", PyVal.num 8500000)]))).isSome = true
       ∧ (findMatchingSource 0.85
            (flatten_tool_values (PyVal.dict [("price", PyVal.num 8500000)]))).isSome = true) := by
  have hj : v ∈ joinedVals (extract_tool_values t) := by
    have hm := (mem_extractRec t "" [] v).mpr (Or.inr h)
    exact hm
  have hw : ∀ y, y ∈ withTransforms v → y ∈ flatten_tool_values t := by
    intro y hy
    exact (mem_flatten_iff t y).mpr ⟨v, hj, hy⟩
  refine ⟨⟨hw v (by simp [withTransforms]), fun hv0 => ?_⟩,
    by decide, by decide, by decide, by decide⟩
  refine ⟨hw _ ?_, hw _ ?_, hw _ ?_, hw _ ?_, hw _ ?_, hw _ ?_⟩ <;>
    simp [withTransforms, derivedTransforms, hv0]

/-- C6 (witness): the theorem applied at the stored value 8,500,000. -/
theorem claim_C6_witness :
    (8500000 : Rat) ∈ flatten_tool_values (PyVal.dict [("price", PyVal.num 8500000)])
    ∧ roundTo ((8500000 : Rat) / 10000000) 2 ∈
        flatten_tool_values (PyVal.dict [("price", PyVal.num 8500000)]) :=
  ⟨(claim_C6_reference_transforms (PyVal.dict [("price", PyVal.num 8500000)]) 8500000
      (by decide)).1.1,
   ((claim_C6_reference_transforms (PyVal.dict [("price", PyVal.num 8500000)]) 8500000
      (by decide)).1.2 (by decide)).2.2.2.2.2⟩

/-- C7: budget parsing maps `"60 lakhs"` to 6,000,000, `"2 cr"` to
20,000,000, `"1.5 crore"` to 15,000,000 (lakh pattern first); and the budget
signal gives a candidate priced exactly at the budget the maximal
in-budget bonus 0.3 (no in-budget candidate gets more) and a candidate at
2× budget the capped penalty −0.2 (no over-budget candidate gets less). -/
theorem claim_C7_budget (b : Rat) (hb : 0 < b) :
    queryBudget ((lowerStr ("60 lakhs")).data) = some 6000000
    ∧ queryBudget ((lowerStr ("2 cr")).data) = some 20000000
    ∧ queryBudget ((lowerStr ("1.5 crore")).data) = some 15000000
    ∧ budgetSignal (some b) (some (PyVal.num b)) = 3/10
    ∧ (∀ p : Rat, 0 < p → p ≤ b → budgetSignal (some b) (some (PyVal.num p)) ≤ 3/10)
    ∧ budgetSignal (some b) (some (PyVal.num (2 * b))) = -(1/5)
    ∧ (∀ p : Rat, b < p → -(1/5) ≤ budgetSignal (some b) (some (PyVal.num p))) := by
  refine ⟨by decide, by decide, by decide, ?_, ?_, ?_, ?_⟩
  · unfold budgetSignal
    dsimp only
    rw [if_pos ⟨ne_of_gt hb, ne_of_gt hb⟩, if_pos le_rfl, div_self (ne_of_gt hb)]
    norm_num
  · intro p hp hpb
    unfold budgetSignal
    dsimp only
    rw [if_pos ⟨ne_of_gt hb, ne_of_gt hp⟩, if_pos hpb]
    have h1 : p / b ≤ 1 := (div_le_one hb).mpr hpb
    nlinarith
  · unfold budgetSignal
    dsimp only
    have h2b : b < 2 * b := by linarith
    rw [if_pos ⟨ne_of_gt hb, ne_of_gt (by linarith)⟩, if_neg (not_le.mpr h2b)]
    have he : (2 * b - b) / b = 1 := by
      field_simp
      ring
    rw [he]
    norm_num
  · intro p hp
    unfold budgetSignal
    dsimp only
    rw [if_pos ⟨ne_of_gt hb, ne_of_gt (lt_trans hb hp)⟩, if_neg (not_le.mpr hp)]
    have hmin : min (2/10 : Rat) ((p - b) / b * (5/10)) ≤ 2/10 := min_le_left _ _
    linarith

/-- C7 (witness): the theorem applied at the parsed budget 6,000,000 with
concrete prices. -/
theorem claim_C7_witness :
    budgetSignal (some 6000000) (some (PyVal.num 6000000)) = 3/10
    ∧ budgetSignal (some 6000000) (some (PyVal.num 3000000)) ≤ 3/10
    ∧ budgetSignal (some 6000000) (some (PyVal.num (2 * 6000000))) = -(1/5)
    ∧ -(1/5) ≤ budgetSignal (some 6000000) (some (PyVal.num 9000000)) :=
  ⟨(claim_C7_budget 6000000 (by decide)).2.2.2.1,
   (claim_C7_budget 6000000 (by decide)).2.2.2.2.1 3000000 (by decide) (by decide),
   (claim_C7_budget 6000000 (by decide)).2.2.2.2.2.1,
   (claim_C7_budget 6000000 (by decide)).2.2.2.2.2.2 9000000 (by decide)⟩

/-- `addScore` keeps the key list unchanged for an existing key and appends
a new key at the end (Python dict insertion order). -/
theorem addScore_fst (acc : List (String × Rat)) (pid : String) (d : Rat) :
    (addScore acc pid d).map Prod.fst =
      if pid ∈ acc.map Prod.fst then acc.map Prod.fst else acc.map Prod.fst ++ [pid] := by
  induction acc with
  | nil => simp [addScore]
  | cons kv t ih =>
    rcases kv with ⟨k, v⟩
    by_cases h : k = pid
    · subst h
      rw [addScore, if_pos rfl]
      simp
    · rw [addScore, if_neg h]
      simp only [List.map_cons, ih]
      by_cases hmem : pid ∈ t.map Prod.fst
      · simp [hmem, Ne.symm h]
      · simp [hmem, Ne.symm h]

theorem lookupScore_addScore (acc : List (String × Rat)) (pid : String) (d : Rat) (p : String) :
    lookupScore (addScore acc pid d) p =
      lookupScore acc p + (if p = pid then d else 0) := by
  induction acc with
  | nil =>
    rw [addScore]
    by_cases h : pid = p
    · subst h
      simp [lookupScore]
    · have h' : ¬ p = pid := fun e => h e.symm
      simp [lookupScore, h, h']
  | cons kv t ih =>
    rcases kv with ⟨k, v⟩
    rw [addScore]
    by_cases hk : k = pid
    · rw [if_pos hk]
      subst hk
      by_cases hp : k = p
      · subst hp
        simp [lookupScore]
      · have hp' : ¬ p = k := fun e => hp e.symm
        simp [lookupScore, hp, hp']
    · rw [if_neg hk]
      by_cases hp : k = p
      · subst hp
        simp [lookupScore, hk]
      · simp [lookupScore, hp, ih]

theorem processRanked_fst (w : Rat) :
    ∀ (l : List String) (r : Nat) (acc : List (String × Rat)),
      (processRanked w l r acc).map Prod.fst =
        acc.map Prod.fst ++ dedupFrom (acc.map Prod.fst) l := by
  intro l
  induction l with
  | nil =>
    intro r acc
    simp [processRanked, dedupFrom]
  | cons x xs ih =>
    intro r acc
    rw [processRanked, ih, addScore_fst]
    by_cases h : x ∈ acc.map Prod.fst
    · rw [if_pos h, dedupFrom, if_pos h]
    · rw [if_neg h, dedupFrom, if_neg h]
      simp

theorem lookupScore_processRanked (w : Rat) :
    ∀ (l : List String) (r : Nat) (acc : List (String × Rat)) (p : String),
      lookupScore (processRanked w l r acc) p =
        lookupScore acc p + w * rankSum l r p := by
  intro l
  induction l with
  | nil =>
    intro r acc p
    simp [processRanked, rankSum]
  | cons x xs ih =>
    intro r acc p
    rw [processRanked, ih, lookupScore_addScore, rankSum]
    by_cases h : x = p
    · simp [h]
      ring
    · have h' : ¬ p = x := fun e => h e.symm
      simp [h, h']

theorem addScore_fst_nodup (acc : List (String × Rat)) (pid : String) (d : Rat)
    (h : (acc.map Prod.fst).Nodup) : ((addScore acc pid d).map Prod.fst).Nodup := by
  rw [addScore_fst]
  split_ifs with hmem
  · exact h
  · simp [List.nodup_append, h, hmem]

theorem processRanked_fst_nodup (w : Rat) :
    ∀ (l : List String) (r : Nat) (acc : List (String × Rat)),
      (acc.map Prod.fst).Nodup → ((processRanked w l r acc).map Prod.fst).Nodup := by
  intro l
  induction l with
  | nil =>
    intro r acc h
    simpa [processRanked] using h
  | cons x xs ih =>
    intro r acc h
    rw [processRanked]
    exact ih (r + 1) _ (addScore_fst_nodup acc x _ h)

/-- An association list with distinct keys is determined by its key list and
its lookup function. -/
theorem assoc_eq_map (acc : List (String × Rat)) (h : (acc.map Prod.fst).Nodup) :
    acc = (acc.map Prod.fst).map (fun k => (k, lookupScore acc k)) := by
  induction acc with
  | nil => rfl
  | cons kv t ih =>
    rcases kv with ⟨k, v⟩
    simp only [List.map_cons] at h ⊢
    rcases List.nodup_cons.mp h with ⟨hk, ht⟩
    have hhead : (k, v) = (k, lookupScore ((k, v) :: t) k) := by
      simp [lookupScore]
    rw [← hhead]
    congr 1
    calc t = (t.map Prod.fst).map (fun k' => (k', lookupScore t k')) := ih ht
      _ = (t.map Prod.fst).map (fun k' => (k', lookupScore ((k, v) :: t) k')) := by
        refine List.map_congr_left ?_
        intro k' hk'
        have hne : ¬ k = k' := fun e => hk (e ▸ hk')
        simp [lookupScore, hne]

theorem dedupFrom_append {α : Type} [DecidableEq α] (l₁ l₂ : List α) :
    ∀ seen, dedupFrom seen (l₁ ++ l₂) =
      dedupFrom seen l₁ ++ dedupFrom (seen ++ dedupFrom seen l₁) l₂ := by
  induction l₁ with
  | nil =>
    intro seen
    simp [dedupFrom]
  | cons x xs ih =>
    intro seen
    by_cases h : x ∈ seen
    · simp only [List.cons_append, dedupFrom, if_pos h]
      exact ih seen
    · simp only [List.cons_append, dedupFrom, if_neg h]
      simp only [List.append_eq]
      rw [ih (seen ++ [x])]
      simp

/-- The fused accumulator is exactly: identifiers in order of first
encounter across vector, keyword, spatial, each with the specification's
weighted rank-sum score. -/
theorem rrfAcc_eq (v k s : List String) :
    processRanked (6/10) s 1 (processRanked (8/10) k 1 (processRanked 1 v 1 [])) =
      (dedupFirst (v ++ k ++ s)).map (fun pid => (pid, specScore v k s pid)) := by
  have hfst : (processRanked (6/10) s 1 (processRanked (8/10) k 1
      (processRanked 1 v 1 []))).map Prod.fst = dedupFirst (v ++ k ++ s) := by
    rw [processRanked_fst, processRanked_fst, processRanked_fst]
    unfold dedupFirst
    rw [dedupFrom_append (v ++ k) s [], dedupFrom_append v k []]
    simp
  have hnd : ((processRanked (6/10) s 1 (processRanked (8/10) k 1
      (processRanked 1 v 1 []))).map Prod.fst).Nodup := by
    refine processRanked_fst_nodup _ s 1 _ ?_
    refine processRanked_fst_nodup _ k 1 _ ?_
    refine processRanked_fst_nodup _ v 1 _ ?_
    simp
  have hlk : ∀ pid, lookupScore (processRanked (6/10) s 1 (processRanked (8/10) k 1
      (processRanked 1 v 1 []))) pid = specScore v k s pid := by
    intro pid
    rw [lookupScore_processRanked, lookupScore_processRanked, lookupScore_processRanked]
    unfold specScore
    simp [lookupScore]
  calc processRanked (6/10) s 1 (processRanked (8/10) k 1 (processRanked 1 v 1 []))
      = ((processRanked (6/10) s 1 (processRanked (8/10) k 1 (processRanked 1 v 1 []))).map
          Prod.fst).map (fun pid => (pid, lookupScore (processRanked (6/10) s 1
            (processRanked (8/10) k 1 (processRanked 1 v 1 []))) pid)) := assoc_eq_map _ hnd
    _ = (dedupFirst (v ++ k ++ s)).map (fun pid => (pid, specScore v k s pid)) := by
        rw [hfst]
        exact List.map_congr_left (fun pid _ => by rw [hlk pid])

/-- C5: reciprocal rank fusion returns exactly the identifiers of the three
input lists (weights 1.0 / 0.8 / 0.6), each scored by summing `w/(60+r)`
over its 1-based ranks, stably sorted descending by score with ties in
first-encounter order (vector, then keyword, then spatial, then intra-list
rank); empty inputs produce empty output. -/
theorem claim_C5_rrf (v k s : List String) :
    reciprocal_rank_fusion v k s = rrfSpec v k s
    ∧ List.Sorted (fun a b : String × Rat => b.2 ≤ a.2) (reciprocal_rank_fusion v k s)
    ∧ (reciprocal_rank_fusion v k s).Perm
        ((dedupFirst (v ++ k ++ s)).map (fun pid => (pid, specScore v k s pid)))
    ∧ reciprocal_rank_fusion [] [] [] = [] := by
  have htrans : ∀ a b c : String × Rat,
      sndDesc a b = true → sndDesc b c = true → sndDesc a c = true := by
    intro a b c h1 h2
    simp only [sndDesc, decide_eq_true_eq] at h1 h2 ⊢
    exact le_trans h2 h1
  have htot : ∀ a b : String × Rat, (sndDesc a b || sndDesc b a) = true := by
    intro a b
    simp only [sndDesc, Bool.or_eq_true, decide_eq_true_eq]
    exact le_total b.2 a.2
  refine ⟨?_, ?_, ?_, by decide⟩
  · unfold reciprocal_rank_fusion rrfSpec
    rw [rrfAcc_eq]
  · unfold reciprocal_rank_fusion
    have hp := List.sorted_mergeSort htrans htot
      (processRanked (6/10) s 1 (processRanked (8/10) k 1 (processRanked 1 v 1 [])))
    exact hp.imp (fun h => by simpa only [sndDesc, decide_eq_true_eq] using h)
  · unfold reciprocal_rank_fusion
    rw [rrfAcc_eq]
    exact List.mergeSort_perm _ _

/-- Removing the `cross_score` key from a scored copy recovers the original
candidate minus that key: no other field is touched. -/
theorem dictErase_dictSet (p : List (String × PyVal)) (k : String) (v : PyVal) :
    dictErase (dictSet p k v) k = dictErase p k := by
  induction p with
  | nil => simp [dictSet, dictErase]
  | cons kv t ih =>
    rcases kv with ⟨k', v'⟩
    by_cases h : k' = k
    · rw [dictSet, if_pos h]
      subst h
      simp [dictErase]
    · rw [dictSet, if_neg h]
      simp only [dictErase, List.filter_cons] at ih ⊢
      simp [h]
      simpa using ih

theorem pyGet_dictSet (p : List (String × PyVal)) (k : String) (v : PyVal) :
    pyGet (dictSet p k v) k = some v := by
  induction p with
  | nil => simp [dictSet, pyGet]
  | cons kv t ih =>
    rcases kv with ⟨k', v'⟩
    by_cases h : k' = k
    · rw [dictSet, if_pos h]
      simp [pyGet]
    · rw [dictSet, if_neg h]
      simp only [pyGet, List.find?] at ih ⊢
      simp [h, ih]

/-- C10 (amended): the reranker does not modify the supplied candidates; it
returns, for each candidate, a fresh record equal to the original except for
an added (or overwritten) `cross_score` field carrying the rounded computed
score, and the returned list is exactly these records stably sorted
descending by `cross_score`; erased of that one key, the returned records
are a permutation of the inputs erased of it. -/
theorem claim_C10_amended (query : String) (props : List (List (String × PyVal))) :
    (cross_score query props).Perm (props.map (fun p =>
        dictSet p ("cross_score") (PyVal.num (roundTo (computeScore query p) 6))))
    ∧ List.Sorted (fun a b => crossKey b ≤ crossKey a) (cross_score query props)
    ∧ ((cross_score query props).map (fun d => dictErase d ("cross_score"))).Perm
        (props.map (fun p => dictErase p ("cross_score")))
    ∧ ∀ d, d ∈ cross_score query props → ∃ p, p ∈ props ∧
        d = dictSet p ("cross_score") (PyVal.num (roundTo (computeScore query p) 6)) ∧
        dictErase d ("cross_score") = dictErase p ("cross_score") ∧
        pyGet d ("cross_score") = some (PyVal.num (roundTo (computeScore query p) 6)) := by
  have hperm : (cross_score query props).Perm (props.map (fun p =>
      dictSet p ("cross_score") (PyVal.num (roundTo (computeScore query p) 6)))) := by
    unfold cross_score
    exact List.mergeSort_perm _ _
  have htrans : ∀ a b c : List (String × PyVal),
      scoreDesc a b = true → scoreDesc b c = true → scoreDesc a c = true := by
    intro a b c h1 h2
    simp only [scoreDesc, decide_eq_true_eq] at h1 h2 ⊢
    exact le_trans h2 h1
  have htot : ∀ a b : List (String × PyVal), (scoreDesc a b || scoreDesc b a) = true := by
    intro a b
    simp only [scoreDesc, Bool.or_eq_true, decide_eq_true_eq]
    exact le_total (crossKey b) (crossKey a)
  refine ⟨hperm, ?_, ?_, ?_⟩
  · unfold cross_score
    exact (List.sorted_mergeSort htrans htot _).imp
      (fun h => by simpa only [scoreDesc, decide_eq_true_eq] using h)
  · have h1 := hperm.map (fun d => dictErase d ("cross_score"))
    rw [List.map_map] at h1
    have h2 : props.map ((fun d => dictErase d ("cross_score")) ∘ (fun p =>
        dictSet p ("cross_score") (PyVal.num (roundTo (computeScore query p) 6))))
        = props.map (fun p => dictErase p ("cross_score")) :=
      List.map_congr_left (fun p _ => dictErase_dictSet p _ _)
    rwa [h2] at h1
  · intro d hd
    have hmem : d ∈ props.map (fun p =>
        dictSet p ("cross_score") (PyVal.num (roundTo (computeScore query p) 6))) :=
      hperm.mem_iff.mp hd
    rcases List.mem_map.mp hmem with ⟨p, hp, heq⟩
    exact ⟨p, hp, heq.symm, heq ▸ dictErase_dictSet p _ _, heq ▸ pyGet_dictSet p _ _⟩

/-- C10 (counterexample): the reranker does not update a score field of the
supplied candidate in place — it returns a fresh record with an additional
`cross_score` key.  For the single candidate
`{"title": "flat", "combined_score": 0.5}` the returned record has the extra
key `cross_score` (value 0.7), while the candidate's own fields are carried
over unchanged and the candidate itself has no `cross_score` key. -/
theorem claim_C10_counterexample :
    (cross_score ("flat")
        [[("title", PyVal.str "flat"), ("combined_score", PyVal.num (1/2))]]).map
          (fun d => d.map Prod.fst)
      = [["title", "combined_score", "cross_score"]]
    ∧ ([("title", PyVal.str "flat"), ("combined_score", PyVal.num (1/2))] :
        List (String × PyVal)).map Prod.fst = ["title", "combined_score"]
    ∧ (cross_score ("flat")
        [[("title", PyVal.str "flat"), ("combined_score", PyVal.num (1/2))]]).map crossKey
      = [7/10]
    ∧ (cross_score ("flat")
        [[("title", PyVal.str "flat"), ("combined_score", PyVal.num (1/2))]]).map baseScore
      = [1/2]
    ∧ (pyGet [("title", PyVal.str "flat"), ("combined_score", PyVal.num (1/2))]
        ("cross_score")).isSome = false :=
  ⟨by decide, by decide, by decide, by decide, by decide⟩

/-- C10 (witness): the amended theorem applied at a concrete query and
candidate. -/
theorem claim_C10_witness :
    ∃ p, p ∈ [[("title", PyVal.str "flat"), ("combined_score", PyVal.num (1/2))]] ∧
      dictSet [("title", PyVal.str "flat"), ("combined_score", PyVal.num (1/2))]
          ("cross_score")
          (PyVal.num (roundTo (computeScore ("flat")
            [("title", PyVal.str "flat"), ("combined_score", PyVal.num (1/2))]) 6))
        = dictSet p ("cross_score") (PyVal.num (roundTo (computeScore ("flat") p) 6)) ∧
      dictErase (dictSet [("title", PyVal.str "flat"), ("combined_score", PyVal.num (1/2))]
          ("cross_score")
          (PyVal.num (roundTo (computeScore ("flat")
            [("title", PyVal.str "flat"), ("combined_score", PyVal.num (1/2))]) 6)))
          ("cross_score")
        = dictErase p ("cross_score") ∧
      pyGet (dictSet [("title", PyVal.str "flat"), ("combined_score", PyVal.num (1/2))]
          ("cross_score")
          (PyVal.num (roundTo (computeScore ("flat")
            [("title", PyVal.str "flat"), ("combined_score", PyVal.num (1/2))]) 6)))
          ("cross_score")
        = some (PyVal.num (roundTo (computeScore ("flat") p) 6)) :=
  (claim_C10_amended ("flat")
    [[("title", PyVal.str "flat"), ("combined_score", PyVal.num (1/2))]]).2.2.2
    (dictSet [("title", PyVal.str "flat"), ("combined_score", PyVal.num (1/2))]
      ("cross_score")
      (PyVal.num (roundTo (computeScore ("flat")
        [("title", PyVal.str "flat"), ("combined_score", PyVal.num (1/2))]) 6)))
    (by
      rw [(rfl : cross_score ("flat")
          [[("title", PyVal.str "flat"), ("combined_score", PyVal.num (1/2))]]
        = [dictSet [("title", PyVal.str "flat"), ("combined_score", PyVal.num (1/2))]
            ("cross_score")
            (PyVal.num (roundTo (computeScore ("flat")
              [("title", PyVal.str "flat"), ("combined_score", PyVal.num (1/2))]) 6))])]
      exact List.mem_singleton_self _)

end PurityProp
